import Mathlib

/-!
Verification model of the `payments-engine` repository.

Strings are modelled as `List Char` (the sequence of Unicode scalar values of a
Rust `&str`); byte-level operations (`str::len`, byte slicing) are modelled
through the UTF-8 size of each character.  Machine integers are modelled as
`Nat` / `Int`; the wrapping `as i64` cast is explicit, and checked arithmetic
(the debug profile, which the crate's tests run under) is modelled by an
explicit `panic` outcome when an intermediate result leaves the machine range.
-/

namespace PaymentsEngine

/-- UTF-8 encoded byte count of one character (Rust `char::len_utf8`). -/
def utf8Bytes (c : Char) : Nat :=
  if c.toNat < 128 then 1
  else if c.toNat < 2048 then 2
  else if c.toNat < 65536 then 3
  else 4

/-- Byte length of a string (Rust `str::len`). -/
def utf8Len (s : List Char) : Nat := (s.map utf8Bytes).sum

/-- ASCII decimal digit test. -/
def isDigitC (c : Char) : Bool := 48 ≤ c.toNat && c.toNat ≤ 57

/-- Numeric value of an ASCII digit character. -/
def digitVal (c : Char) : Nat := c.toNat - 48

/-- Value of a digit string, most significant digit first. -/
def digitsToNat (s : List Char) : Nat := s.foldl (fun a c => 10 * a + digitVal c) 0

/-- Model of Rust `str::parse::<u64>`: an optional leading `'+'`, then at least
one ASCII digit and nothing else, with the value bounded by `u64::MAX`. -/
def parse_u64 (s : List Char) : Option Nat :=
  let t : List Char :=
    match s with
    | [] => []
    | c :: rest => if c = '+' then rest else c :: rest
  if t.isEmpty then none
  else if t.all isDigitC then
    if digitsToNat t < 2 ^ 64 then some (digitsToNat t) else none
  else none

/-- Model of Rust `str::split_once`: split at the first occurrence of `sep`. -/
def splitOnce (sep : Char) : List Char → Option (List Char × List Char)
| [] => none
| c :: rest =>
  if c = sep then some ([], rest)
  else
    match splitOnce sep rest with
    | none => none
    | some (a, b) => some (c :: a, b)

/-- Take the first `n` bytes of a string, as Rust slicing `s[..n]` does.
`none` models the Rust panic: the index is past the end of the string, or it
falls strictly inside the UTF-8 encoding of a character (not a char boundary). -/
def takeBytes : Nat → List Char → Option (List Char)
| 0, _ => some []
| _ + 1, [] => none
| n + 1, c :: rest =>
  if utf8Bytes c ≤ n + 1 then
    match takeBytes (n + 1 - utf8Bytes c) rest with
    | none => none
    | some l => some (c :: l)
  else none

/-- Model of `first_four_chars_or_pad` (src/util.rs): push `'0'` while the byte
length is below 4 (each push adds one byte), then slice the first 4 bytes. -/
def first_four_chars_or_pad (s : List Char) : Option (List Char) :=
  takeBytes 4 (s ++ List.replicate (4 - utf8Len s) '0')

/-- Decimal digit characters of `n`, most significant first (Rust `{}` display
of an unsigned integer). -/
def natDec (n : Nat) : List Char :=
  if n = 0 then ['0']
  else (Nat.digits 10 n).reverse.map (fun d => Char.ofNat (48 + d))

/-- Zero padding on the left to width 4 (Rust format specifier `{:04}`). -/
def pad4 (s : List Char) : List Char := List.replicate (4 - s.length) '0' ++ s

/-- Model of `fixed_point_4_decimal_to_float_str` (src/util.rs):
`format!("{}.{:04}", value / 10_000, value % 10_000)`. -/
def fixed_point_4_decimal_to_float_str (value : Nat) : List Char :=
  natDec (value / 10000) ++ '.' :: pad4 (natDec (value % 10000))

/-- Outcome of the amount parser.  `err` is the spec's `ParseError`; `panic`
models a debug-profile arithmetic-overflow panic or a byte-slicing panic. -/
inductive ParseRes where
| ok (v : Nat)
| err
| panic
deriving DecidableEq, Repr

/-- Body of `float_str_to_fixed_point_4_decimal` after destructuring the split:
parse the integer part as `u64` and multiply by 10000 (checked, debug profile);
pad/slice the fractional part to 4 bytes and parse it as `u64`; add (checked). -/
def parseParts (integer fractional : List Char) : ParseRes :=
  match parse_u64 integer with
  | none => .err
  | some i =>
    if i * 10000 < 2 ^ 64 then
      match first_four_chars_or_pad fractional with
      | none => .panic
      | some f4 =>
        match parse_u64 f4 with
        | none => .err
        | some f =>
          if i * 10000 + f < 2 ^ 64 then .ok (i * 10000 + f) else .panic
    else .panic

/-- Model of `float_str_to_fixed_point_4_decimal` (src/util.rs): split once on
`'.'` (no dot: the whole input is the integer part, the fractional part is
empty), then process the two parts. -/
def float_str_to_fixed_point_4_decimal (value : List Char) : ParseRes :=
  match splitOnce '.' value with
  | none => parseParts value []
  | some (p, s) => parseParts p s

/-- Dispute lifecycle state of one deposit (src/engine.rs `DepositState`). -/
inductive DepositState where
| Valid
| InDispute
| ChargedBack
deriving DecidableEq, Repr

/-- One deposit record owned by an account (src/engine.rs `Deposit`). -/
structure Deposit where
  amount : Nat
  state : DepositState
deriving DecidableEq, Repr

/-- Per-client ledger (src/engine.rs `Account`).  `available_amount` is an
`i64`, `held_amount` a `u64`; the `HashMap<u32, Deposit>` is modelled as an
association list. -/
structure Account where
  available_amount : Int
  held_amount : Nat
  locked : Bool
  deposits : List (Nat × Deposit)
deriving DecidableEq, Repr

/-- The engine (src/engine.rs `Engine`): `HashMap<u16, Account>` as an
association list, `HashSet<u32>` as a duplicate-free list. -/
structure Engine where
  accounts : List (Nat × Account)
  transactions : List Nat
deriving DecidableEq, Repr

/-- `HashMap::get` on the association-list model. -/
def lookupA {α : Type} : List (Nat × α) → Nat → Option α
| [], _ => none
| (k, v) :: rest, k' => if k = k' then some v else lookupA rest k'

/-- `HashMap::insert`, or an in-place update through `get_mut`: replace the
first binding of `k`, appending a new binding when `k` is absent.  Binding
order is preserved. -/
def setA {α : Type} : List (Nat × α) → Nat → α → List (Nat × α)
| [], k, v => [(k, v)]
| (k', v') :: rest, k, v =>
  if k' = k then (k, v) :: rest else (k', v') :: setA rest k v

/-- Error kinds of the spec's taxonomy (§7), mapped one-to-one onto the
`bail!`/`ensure!` sites of src/engine.rs. -/
inductive EngineError where
| AccountLocked
| InsufficientFunds
| AccountNotFound
| DepositNotFound
| InvalidDepositState
| DuplicateTransactionId
deriving DecidableEq, Repr

/-- Result of a fallible operation on a mutable receiver.  `err` carries the
state the receiver holds when the error is returned (Rust's `bail!` does not
roll back earlier mutations); `panic` models a debug-profile arithmetic
overflow or slicing panic, which aborts the program. -/
inductive PRes (α : Type) where
| ok (a : α)
| err (e : EngineError) (a : α)
| panic
deriving DecidableEq, Repr

/-- Value of `a as i64` for a `u64` value `a` (wrapping cast, never panics). -/
def i64cast (a : Nat) : Int := if a < 2 ^ 63 then (a : Int) else (a : Int) - 2 ^ 64

/-- `x` fits in `i64`.  Debug-profile Rust panics when an arithmetic result
does not. -/
def i64InRange (x : Int) : Bool := decide (-(2 ^ 63) ≤ x) && decide (x < 2 ^ 63)

/-- `Account::new`. -/
def Account.new : Account := ⟨0, 0, false, []⟩

/-- `Account::deposit`: reject when locked; insert the deposit record in state
`Valid`; `available_amount += amount as i64` (checked add). -/
def Account.deposit (self : Account) (tx_id : Nat) (amount : Nat) : PRes Account :=
  if self.locked then .err .AccountLocked self
  else if i64InRange (self.available_amount + i64cast amount) then
    .ok { self with
          deposits := setA self.deposits tx_id ⟨amount, .Valid⟩,
          available_amount := self.available_amount + i64cast amount }
  else .panic

/-- `Account::withdraw`: reject when locked; reject when
`available_amount < amount as i64`; else `available_amount -= amount as i64`
(checked sub). -/
def Account.withdraw (self : Account) (amount : Nat) : PRes Account :=
  if self.locked then .err .AccountLocked self
  else if i64cast amount ≤ self.available_amount then
    if i64InRange (self.available_amount - i64cast amount) then
      .ok { self with available_amount := self.available_amount - i64cast amount }
    else .panic
  else .err .InsufficientFunds self

/-- `Account::start_dispute`: on a `Valid` deposit, move it to `InDispute`,
`available_amount -= amount as i64` (checked), `held_amount += amount`
(checked). -/
def Account.start_dispute (self : Account) (tx_id : Nat) : PRes Account :=
  match lookupA self.deposits tx_id with
  | none => .err .DepositNotFound self
  | some d =>
    match d.state with
    | .Valid =>
      if i64InRange (self.available_amount - i64cast d.amount) then
        if self.held_amount + d.amount < 2 ^ 64 then
          .ok { self with
                deposits := setA self.deposits tx_id ⟨d.amount, .InDispute⟩,
                available_amount := self.available_amount - i64cast d.amount,
                held_amount := self.held_amount + d.amount }
        else .panic
      else .panic
    | .InDispute => .err .InvalidDepositState self
    | .ChargedBack => .err .InvalidDepositState self

/-- `Account::resolve_dispute`: on an `InDispute` deposit, move it back to
`Valid`, `available_amount += amount as i64` (checked), `held_amount -= amount`
(checked). -/
def Account.resolve_dispute (self : Account) (tx_id : Nat) : PRes Account :=
  match lookupA self.deposits tx_id with
  | none => .err .DepositNotFound self
  | some d =>
    match d.state with
    | .InDispute =>
      if i64InRange (self.available_amount + i64cast d.amount) then
        if d.amount ≤ self.held_amount then
          .ok { self with
                deposits := setA self.deposits tx_id ⟨d.amount, .Valid⟩,
                available_amount := self.available_amount + i64cast d.amount,
                held_amount := self.held_amount - d.amount }
        else .panic
      else .panic
    | .Valid => .err .InvalidDepositState self
    | .ChargedBack => .err .InvalidDepositState self

/-- `Account::chargeback`: on an `InDispute` deposit, move it to `ChargedBack`,
`held_amount -= amount` (checked), set `locked`. -/
def Account.chargeback (self : Account) (tx_id : Nat) : PRes Account :=
  match lookupA self.deposits tx_id with
  | none => .err .DepositNotFound self
  | some d =>
    match d.state with
    | .InDispute =>
      if d.amount ≤ self.held_amount then
        .ok { self with
              deposits := setA self.deposits tx_id ⟨d.amount, .ChargedBack⟩,
              held_amount := self.held_amount - d.amount,
              locked := true }
      else .panic
    | .Valid => .err .InvalidDepositState self
    | .ChargedBack => .err .InvalidDepositState self

/-- One normalized transaction record (src/transaction.rs `Transaction`). -/
inductive Transaction where
| Deposit (client_id : Nat) (tx_id : Nat) (amount : Nat)
| Withdrawal (client_id : Nat) (tx_id : Nat) (amount : Nat)
| Dispute (client_id : Nat) (tx_id : Nat)
| Resolve (client_id : Nat) (tx_id : Nat)
| Chargeback (client_id : Nat) (tx_id : Nat)
deriving DecidableEq, Repr

/-- `Engine::new`. -/
def Engine.new : Engine := ⟨[], []⟩

/-- The second `match` of `Engine::process_transaction`: dispatch to the
targeted account's operation.  For a deposit, `entry(..).or_insert_with` puts a
fresh account in the map before the operation runs; for the other kinds an
absent account is `AccountNotFound`. -/
def Engine.dispatch (self : Engine) (t : Transaction) : PRes Engine :=
  match t with
  | .Deposit client_id tx_id amount =>
    match ((lookupA self.accounts client_id).getD Account.new).deposit tx_id amount with
    | .ok a => .ok { self with accounts := setA self.accounts client_id a }
    | .err e a => .err e { self with accounts := setA self.accounts client_id a }
    | .panic => .panic
  | .Withdrawal client_id _ amount =>
    match lookupA self.accounts client_id with
    | none => .err .AccountNotFound self
    | some account =>
      match account.withdraw amount with
      | .ok a => .ok { self with accounts := setA self.accounts client_id a }
      | .err e a => .err e { self with accounts := setA self.accounts client_id a }
      | .panic => .panic
  | .Dispute client_id tx_id =>
    match lookupA self.accounts client_id with
    | none => .err .AccountNotFound self
    | some account =>
      match account.start_dispute tx_id with
      | .ok a => .ok { self with accounts := setA self.accounts client_id a }
      | .err e a => .err e { self with accounts := setA self.accounts client_id a }
      | .panic => .panic
  | .Resolve client_id tx_id =>
    match lookupA self.accounts client_id with
    | none => .err .AccountNotFound self
    | some account =>
      match account.resolve_dispute tx_id with
      | .ok a => .ok { self with accounts := setA self.accounts client_id a }
      | .err e a => .err e { self with accounts := setA self.accounts client_id a }
      | .panic => .panic
  | .Chargeback client_id tx_id =>
    match lookupA self.accounts client_id with
    | none => .err .AccountNotFound self
    | some account =>
      match account.chargeback tx_id with
      | .ok a => .ok { self with accounts := setA self.accounts client_id a }
      | .err e a => .err e { self with accounts := setA self.accounts client_id a }
      | .panic => .panic

/-- `Engine::process_transaction`: the `tx_id`-uniqueness gate for deposits and
withdrawals (`HashSet::insert` leaves the set unchanged and reports a duplicate
when the id is present, and the insertion is not rolled back if the dispatch
then fails), followed by the dispatch. -/
def Engine.process_transaction (self : Engine) (t : Transaction) : PRes Engine :=
  match t with
  | .Deposit _ tx_id _ | .Withdrawal _ tx_id _ =>
    if tx_id ∈ self.transactions then .err .DuplicateTransactionId self
    else Engine.dispatch { self with transactions := tx_id :: self.transactions } t
  | .Dispute _ _ | .Resolve _ _ | .Chargeback _ _ => Engine.dispatch self t

/-- The record loop of `main`: an error is reported and the stream continues; a
panic aborts the program (`none`). -/
def runE : List Transaction → Engine → Option Engine
| [], e => some e
| t :: rest, e =>
  match e.process_transaction t with
  | .ok e' => runE rest e'
  | .err _ e' => runE rest e'
  | .panic => none

/-- Sum of the amounts of the deposit records in state `InDispute`. -/
def heldSum : List (Nat × Deposit) → Nat
| [] => 0
| (_, d) :: rest => (if d.state = DepositState.InDispute then d.amount else 0) + heldSum rest

/-- The record is a Deposit or a Withdrawal carrying tx id `tx`. -/
def usesTxId (t : Transaction) (tx : Nat) : Bool :=
  match t with
  | .Deposit _ tx_id _ => tx_id = tx
  | .Withdrawal _ tx_id _ => tx_id = tx
  | .Dispute _ _ => false
  | .Resolve _ _ => false
  | .Chargeback _ _ => false

/-! Association-list map lemmas. -/

theorem lookupA_setA_self {α : Type} (m : List (Nat × α)) (k : Nat) (v : α) :
    lookupA (setA m k v) k = some v := by
  induction m with
  | nil => simp [setA, lookupA]
  | cons p rest ih =>
    obtain ⟨k', v'⟩ := p
    by_cases h : k' = k
    · simp [setA, h, lookupA]
    · simp [setA, h, lookupA, ih]

theorem lookupA_setA_ne {α : Type} (m : List (Nat × α)) (k k' : Nat) (v : α)
    (h : k' ≠ k) : lookupA (setA m k v) k' = lookupA m k' := by
  induction m with
  | nil => simp [setA, lookupA, Ne.symm h]
  | cons p rest ih =>
    obtain ⟨k0, v0⟩ := p
    by_cases h0 : k0 = k
    · subst h0
      simp only [setA, if_pos rfl, lookupA, if_neg (Ne.symm h)]
    · simp only [setA, if_neg h0, lookupA, ih]

theorem setA_lookup_eq {α : Type} (m : List (Nat × α)) (k : Nat) (v : α)
    (h : lookupA m k = some v) : setA m k v = m := by
  induction m with
  | nil => simp [lookupA] at h
  | cons p rest ih =>
    obtain ⟨k0, v0⟩ := p
    by_cases h0 : k0 = k
    · subst h0
      simp [lookupA] at h
      subst h
      simp [setA]
    · simp only [lookupA, if_neg h0] at h
      simp [setA, h0, ih h]

theorem lookupA_setA_cases {α : Type} {m : List (Nat × α)} {k k' : Nat} {v d : α}
    (h : lookupA (setA m k v) k' = some d) :
    (k' = k ∧ d = v) ∨ (k' ≠ k ∧ lookupA m k' = some d) := by
  by_cases hk : k' = k
  · subst hk
    rw [lookupA_setA_self] at h
    exact Or.inl ⟨rfl, (Option.some.injEq _ _ ▸ h).symm⟩
  · rw [lookupA_setA_ne m k k' v hk] at h
    exact Or.inr ⟨hk, h⟩

theorem setA_setA {α : Type} (m : List (Nat × α)) (k : Nat) (v v' : α) :
    setA (setA m k v) k v' = setA m k v' := by
  induction m with
  | nil => simp [setA]
  | cons p rest ih =>
    obtain ⟨k0, v0⟩ := p
    by_cases h0 : k0 = k
    · simp [setA, h0]
    · simp [setA, h0, ih]

theorem setA_absent {α : Type} (m : List (Nat × α)) (k : Nat) (v : α)
    (h : lookupA m k = none) : setA m k v = m ++ [(k, v)] := by
  induction m with
  | nil => simp [setA]
  | cons p rest ih =>
    obtain ⟨k0, v0⟩ := p
    by_cases h0 : k0 = k
    · subst h0
      simp [lookupA] at h
    · simp only [lookupA, if_neg h0] at h
      simp [setA, h0, ih h]

/-- Contribution of one deposit record to the held sum. -/
def contribD (d : Deposit) : Nat :=
  if d.state = DepositState.InDispute then d.amount else 0

theorem heldSum_cons (k : Nat) (d : Deposit) (rest : List (Nat × Deposit)) :
    heldSum ((k, d) :: rest) = contribD d + heldSum rest := rfl

theorem heldSum_append (m₁ m₂ : List (Nat × Deposit)) :
    heldSum (m₁ ++ m₂) = heldSum m₁ + heldSum m₂ := by
  induction m₁ with
  | nil => simp [heldSum]
  | cons p rest ih =>
    obtain ⟨k, d⟩ := p
    simp only [List.cons_append, heldSum_cons, ih]
    omega

theorem heldSum_setA (m : List (Nat × Deposit)) (k : Nat) (d d' : Deposit)
    (h : lookupA m k = some d) :
    heldSum (setA m k d') + contribD d = heldSum m + contribD d' := by
  induction m with
  | nil => simp [lookupA] at h
  | cons p rest ih =>
    obtain ⟨k0, v0⟩ := p
    by_cases h0 : k0 = k
    · subst h0
      simp [lookupA] at h
      subst h
      simp [setA, heldSum_cons]
      omega
    · simp only [lookupA, if_neg h0] at h
      simp only [setA, if_neg h0, heldSum_cons]
      have := ih h
      omega

theorem contribD_le_heldSum (m : List (Nat × Deposit)) (k : Nat) (d : Deposit)
    (h : lookupA m k = some d) : contribD d ≤ heldSum m := by
  induction m with
  | nil => simp [lookupA] at h
  | cons p rest ih =>
    obtain ⟨k0, v0⟩ := p
    by_cases h0 : k0 = k
    · subst h0
      simp [lookupA] at h
      subst h
      simp only [heldSum_cons]
      omega
    · simp only [lookupA, if_neg h0] at h
      have := ih h
      simp only [heldSum_cons]
      omega

/-! Machine-integer lemmas. -/

theorem i64cast_of_lt {a : Nat} (h : a < 2 ^ 63) : i64cast a = (a : Int) := if_pos h

theorem i64InRange_eq_true {x : Int} (h1 : -(2 ^ 63) ≤ x) (h2 : x < 2 ^ 63) :
    i64InRange x = true := by
  unfold i64InRange
  rw [Bool.and_eq_true, decide_eq_true_eq, decide_eq_true_eq]
  exact ⟨h1, h2⟩

theorem i64InRange_iff {x : Int} :
    i64InRange x = true ↔ (-(2 ^ 63) ≤ x ∧ x < 2 ^ 63) := by
  unfold i64InRange
  rw [Bool.and_eq_true, decide_eq_true_eq, decide_eq_true_eq]

theorem i64InRange_cast (a : Nat) (h : a < 2 ^ 64) : i64InRange (i64cast a) = true := by
  unfold i64cast
  by_cases ha : a < 2 ^ 63
  · rw [if_pos ha]
    refine i64InRange_eq_true (le_trans (by norm_num) (Int.natCast_nonneg a)) ?_
    exact_mod_cast ha
  · rw [if_neg ha]
    refine i64InRange_eq_true ?_ ?_ <;> push_cast <;> omega

/-! Shape lemmas for the account operations. -/

theorem deposit_err_shape {acc : Account} {tx a : Nat} {er : EngineError} {acc' : Account}
    (h : acc.deposit tx a = .err er acc') :
    er = .AccountLocked ∧ acc' = acc ∧ acc.locked = true := by
  unfold Account.deposit at h
  split at h
  · next hl => cases h; exact ⟨rfl, rfl, hl⟩
  · split at h <;> cases h

theorem deposit_ok_shape {acc : Account} {tx a : Nat} {acc' : Account}
    (h : acc.deposit tx a = .ok acc') :
    acc.locked = false ∧ i64InRange (acc.available_amount + i64cast a) = true ∧
    acc' = { acc with
             deposits := setA acc.deposits tx ⟨a, .Valid⟩,
             available_amount := acc.available_amount + i64cast a } := by
  unfold Account.deposit at h
  split at h
  · cases h
  · next hl =>
    split at h
    · next hr => cases h; exact ⟨by simpa using hl, hr, rfl⟩
    · cases h

theorem withdraw_err_shape {acc : Account} {a : Nat} {er : EngineError} {acc' : Account}
    (h : acc.withdraw a = .err er acc') :
    acc' = acc ∧ (er = .AccountLocked ∨ er = .InsufficientFunds) := by
  unfold Account.withdraw at h
  split at h
  · cases h; exact ⟨rfl, Or.inl rfl⟩
  · split at h
    · split at h <;> cases h
    · cases h; exact ⟨rfl, Or.inr rfl⟩

theorem withdraw_ok_shape {acc : Account} {a : Nat} {acc' : Account}
    (h : acc.withdraw a = .ok acc') :
    acc.locked = false ∧ i64cast a ≤ acc.available_amount ∧
    i64InRange (acc.available_amount - i64cast a) = true ∧
    acc' = { acc with available_amount := acc.available_amount - i64cast a } := by
  unfold Account.withdraw at h
  split at h
  · cases h
  · next hl =>
    split at h
    · next hle =>
      split at h
      · next hr => cases h; exact ⟨by simpa using hl, hle, hr, rfl⟩
      · cases h
    · cases h

theorem start_dispute_err_shape {acc : Account} {tx : Nat} {er : EngineError} {acc' : Account}
    (h : acc.start_dispute tx = .err er acc') :
    acc' = acc ∧ (er = .DepositNotFound ∨ er = .InvalidDepositState) := by
  unfold Account.start_dispute at h
  split at h
  · cases h; exact ⟨rfl, Or.inl rfl⟩
  · split at h
    · split at h
      · split at h <;> cases h
      · cases h
    · cases h; exact ⟨rfl, Or.inr rfl⟩
    · cases h; exact ⟨rfl, Or.inr rfl⟩

theorem start_dispute_ok_shape {acc : Account} {tx : Nat} {acc' : Account}
    (h : acc.start_dispute tx = .ok acc') :
    ∃ d, lookupA acc.deposits tx = some d ∧ d.state = .Valid ∧
      i64InRange (acc.available_amount - i64cast d.amount) = true ∧
      acc.held_amount + d.amount < 2 ^ 64 ∧
      acc' = { acc with
               deposits := setA acc.deposits tx ⟨d.amount, .InDispute⟩,
               available_amount := acc.available_amount - i64cast d.amount,
               held_amount := acc.held_amount + d.amount } := by
  unfold Account.start_dispute at h
  split at h
  · cases h
  · next d heq =>
    split at h
    · next hst =>
      split at h
      · next hr =>
        split at h
        · next hh => cases h; exact ⟨d, heq, hst, hr, hh, rfl⟩
        · cases h
      · cases h
    · cases h
    · cases h

theorem resolve_err_shape {acc : Account} {tx : Nat} {er : EngineError} {acc' : Account}
    (h : acc.resolve_dispute tx = .err er acc') :
    acc' = acc ∧ (er = .DepositNotFound ∨ er = .InvalidDepositState) := by
  unfold Account.resolve_dispute at h
  split at h
  · cases h; exact ⟨rfl, Or.inl rfl⟩
  · split at h
    · split at h
      · split at h <;> cases h
      · cases h
    · cases h; exact ⟨rfl, Or.inr rfl⟩
    · cases h; exact ⟨rfl, Or.inr rfl⟩

theorem resolve_ok_shape {acc : Account} {tx : Nat} {acc' : Account}
    (h : acc.resolve_dispute tx = .ok acc') :
    ∃ d, lookupA acc.deposits tx = some d ∧ d.state = .InDispute ∧
      i64InRange (acc.available_amount + i64cast d.amount) = true ∧
      d.amount ≤ acc.held_amount ∧
      acc' = { acc with
               deposits := setA acc.deposits tx ⟨d.amount, .Valid⟩,
               available_amount := acc.available_amount + i64cast d.amount,
               held_amount := acc.held_amount - d.amount } := by
  unfold Account.resolve_dispute at h
  split at h
  · cases h
  · next d heq =>
    split at h
    · next hst =>
      split at h
      · next hr =>
        split at h
        · next hh => cases h; exact ⟨d, heq, hst, hr, hh, rfl⟩
        · cases h
      · cases h
    · cases h
    · cases h

theorem chargeback_err_shape {acc : Account} {tx : Nat} {er : EngineError} {acc' : Account}
    (h : acc.chargeback tx = .err er acc') :
    acc' = acc ∧ (er = .DepositNotFound ∨ er = .InvalidDepositState) := by
  unfold Account.chargeback at h
  split at h
  · cases h; exact ⟨rfl, Or.inl rfl⟩
  · split at h
    · split at h <;> cases h
    · cases h; exact ⟨rfl, Or.inr rfl⟩
    · cases h; exact ⟨rfl, Or.inr rfl⟩

theorem chargeback_ok_shape {acc : Account} {tx : Nat} {acc' : Account}
    (h : acc.chargeback tx = .ok acc') :
    ∃ d, lookupA acc.deposits tx = some d ∧ d.state = .InDispute ∧
      d.amount ≤ acc.held_amount ∧
      acc' = { acc with
               deposits := setA acc.deposits tx ⟨d.amount, .ChargedBack⟩,
               held_amount := acc.held_amount - d.amount,
               locked := true } := by
  unfold Account.chargeback at h
  split at h
  · cases h
  · next d heq =>
    split at h
    · next hst =>
      split at h
      · next hh => cases h; exact ⟨d, heq, hst, hh, rfl⟩
      · cases h
    · cases h
    · cases h

/-! Shape lemmas for `Engine.dispatch`. -/

theorem dispatch_err_state {e : Engine} {t : Transaction} {er : EngineError} {e' : Engine}
    (h : e.dispatch t = .err er e') :
    e'.accounts = e.accounts ∧ e'.transactions = e.transactions ∧
    er ≠ .DuplicateTransactionId := by
  cases t with
  | Deposit c tx a =>
    simp only [Engine.dispatch] at h
    split at h
    · cases h
    · next e0 a0 heq =>
      cases h
      obtain ⟨he0, ha0, hlk⟩ := deposit_err_shape heq
      subst ha0 he0
      refine ⟨?_, rfl, by decide⟩
      cases hl : lookupA e.accounts c with
      | none =>
        rw [hl] at hlk
        simp [Account.new] at hlk
      | some acc0 =>
        simp [setA_lookup_eq _ _ _ hl]
    · cases h
  | Withdrawal c tx a =>
    simp only [Engine.dispatch] at h
    split at h
    · cases h; exact ⟨rfl, rfl, by decide⟩
    · next acc0 hl =>
      split at h
      · cases h
      · next e0 a0 heq =>
        cases h
        obtain ⟨ha0, he0⟩ := withdraw_err_shape heq
        subst ha0
        refine ⟨by simp [setA_lookup_eq _ _ _ hl], rfl, ?_⟩
        rcases he0 with h1 | h1 <;> subst h1 <;> decide
      · cases h
  | Dispute c tx =>
    simp only [Engine.dispatch] at h
    split at h
    · cases h; exact ⟨rfl, rfl, by decide⟩
    · next acc0 hl =>
      split at h
      · cases h
      · next e0 a0 heq =>
        cases h
        obtain ⟨ha0, he0⟩ := start_dispute_err_shape heq
        subst ha0
        refine ⟨by simp [setA_lookup_eq _ _ _ hl], rfl, ?_⟩
        rcases he0 with h1 | h1 <;> subst h1 <;> decide
      · cases h
  | Resolve c tx =>
    simp only [Engine.dispatch] at h
    split at h
    · cases h; exact ⟨rfl, rfl, by decide⟩
    · next acc0 hl =>
      split at h
      · cases h
      · next e0 a0 heq =>
        cases h
        obtain ⟨ha0, he0⟩ := resolve_err_shape heq
        subst ha0
        refine ⟨by simp [setA_lookup_eq _ _ _ hl], rfl, ?_⟩
        rcases he0 with h1 | h1 <;> subst h1 <;> decide
      · cases h
  | Chargeback c tx =>
    simp only [Engine.dispatch] at h
    split at h
    · cases h; exact ⟨rfl, rfl, by decide⟩
    · next acc0 hl =>
      split at h
      · cases h
      · next e0 a0 heq =>
        cases h
        obtain ⟨ha0, he0⟩ := chargeback_err_shape heq
        subst ha0
        refine ⟨by simp [setA_lookup_eq _ _ _ hl], rfl, ?_⟩
        rcases he0 with h1 | h1 <;> subst h1 <;> decide
      · cases h

theorem dispatch_ok_trans {e : Engine} {t : Transaction} {e' : Engine}
    (h : e.dispatch t = .ok e') : e'.transactions = e.transactions := by
  cases t <;> simp only [Engine.dispatch] at h <;>
    (try split at h) <;> (try split at h) <;> cases h <;> rfl

theorem dispatch_ok_deposit {e : Engine} {c tx a : Nat} {e' : Engine}
    (h : e.dispatch (.Deposit c tx a) = .ok e') :
    ∃ a', ((lookupA e.accounts c).getD Account.new).deposit tx a = .ok a' ∧
      e' = { e with accounts := setA e.accounts c a' } := by
  simp only [Engine.dispatch] at h
  split at h
  · next a' heq => cases h; exact ⟨a', heq, rfl⟩
  · cases h
  · cases h

theorem dispatch_ok_withdrawal {e : Engine} {c tx a : Nat} {e' : Engine}
    (h : e.dispatch (.Withdrawal c tx a) = .ok e') :
    ∃ acc0 a', lookupA e.accounts c = some acc0 ∧ acc0.withdraw a = .ok a' ∧
      e' = { e with accounts := setA e.accounts c a' } := by
  simp only [Engine.dispatch] at h
  split at h
  · cases h
  · next acc0 hl =>
    split at h
    · next a' heq => cases h; exact ⟨acc0, a', hl, heq, rfl⟩
    · cases h
    · cases h

theorem dispatch_ok_dispute {e : Engine} {c tx : Nat} {e' : Engine}
    (h : e.dispatch (.Dispute c tx) = .ok e') :
    ∃ acc0 a', lookupA e.accounts c = some acc0 ∧ acc0.start_dispute tx = .ok a' ∧
      e' = { e with accounts := setA e.accounts c a' } := by
  simp only [Engine.dispatch] at h
  split at h
  · cases h
  · next acc0 hl =>
    split at h
    · next a' heq => cases h; exact ⟨acc0, a', hl, heq, rfl⟩
    · cases h
    · cases h

theorem dispatch_ok_resolve {e : Engine} {c tx : Nat} {e' : Engine}
    (h : e.dispatch (.Resolve c tx) = .ok e') :
    ∃ acc0 a', lookupA e.accounts c = some acc0 ∧ acc0.resolve_dispute tx = .ok a' ∧
      e' = { e with accounts := setA e.accounts c a' } := by
  simp only [Engine.dispatch] at h
  split at h
  · cases h
  · next acc0 hl =>
    split at h
    · next a' heq => cases h; exact ⟨acc0, a', hl, heq, rfl⟩
    · cases h
    · cases h

theorem dispatch_ok_chargeback {e : Engine} {c tx : Nat} {e' : Engine}
    (h : e.dispatch (.Chargeback c tx) = .ok e') :
    ∃ acc0 a', lookupA e.accounts c = some acc0 ∧ acc0.chargeback tx = .ok a' ∧
      e' = { e with accounts := setA e.accounts c a' } := by
  simp only [Engine.dispatch] at h
  split at h
  · cases h
  · next acc0 hl =>
    split at h
    · next a' heq => cases h; exact ⟨acc0, a', hl, heq, rfl⟩
    · cases h
    · cases h

/-! The held-balance invariant. -/

/-- Per-account invariant, relative to the engine's used-id set: the held
balance is the sum of the amounts of the deposits in dispute, and every
deposit key has been recorded as a used transaction id. -/
def AccInv (trans : List Nat) (acc : Account) : Prop :=
  acc.held_amount = heldSum acc.deposits ∧
  ∀ k d, lookupA acc.deposits k = some d → k ∈ trans

/-- Engine invariant: every account satisfies `AccInv`. -/
def EngInv (e : Engine) : Prop :=
  ∀ c acc, lookupA e.accounts c = some acc → AccInv e.transactions acc

theorem AccInv_mono {T T' : List Nat} {acc : Account}
    (hsub : ∀ x, x ∈ T → x ∈ T') (h : AccInv T acc) : AccInv T' acc :=
  ⟨h.1, fun k d hk => hsub k (h.2 k d hk)⟩

theorem AccInv_new (T : List Nat) : AccInv T Account.new := by
  refine ⟨rfl, fun k d hk => ?_⟩
  simp [Account.new, lookupA] at hk

theorem EngInv_new : EngInv Engine.new := by
  intro c acc h
  simp [Engine.new, lookupA] at h

theorem deposit_AccInv {T T' : List Nat} {acc acc' : Account} {tx a : Nat}
    (hinv : AccInv T acc) (habs : lookupA acc.deposits tx = none)
    (h : acc.deposit tx a = .ok acc') (htx : tx ∈ T') (hsub : ∀ x ∈ T, x ∈ T') :
    AccInv T' acc' := by
  obtain ⟨-, -, rfl⟩ := deposit_ok_shape h
  constructor
  · show acc.held_amount = heldSum (setA acc.deposits tx ⟨a, .Valid⟩)
    rw [setA_absent _ _ _ habs, heldSum_append]
    have h0 : heldSum [(tx, (⟨a, .Valid⟩ : Deposit))] = 0 := by
      simp [heldSum, contribD]
    have h1 := hinv.1
    omega
  · intro k d hk
    rcases lookupA_setA_cases hk with ⟨rfl, -⟩ | ⟨-, hk'⟩
    · exact htx
    · exact hsub _ (hinv.2 _ _ hk')

theorem withdraw_AccInv {T : List Nat} {acc acc' : Account} {a : Nat}
    (hinv : AccInv T acc) (h : acc.withdraw a = .ok acc') : AccInv T acc' := by
  obtain ⟨-, -, -, rfl⟩ := withdraw_ok_shape h
  exact ⟨hinv.1, hinv.2⟩

theorem start_dispute_AccInv {T : List Nat} {acc acc' : Account} {tx : Nat}
    (hinv : AccInv T acc) (h : acc.start_dispute tx = .ok acc') : AccInv T acc' := by
  obtain ⟨d, hd, hst, -, -, rfl⟩ := start_dispute_ok_shape h
  constructor
  · show acc.held_amount + d.amount = heldSum (setA acc.deposits tx ⟨d.amount, .InDispute⟩)
    have hs := heldSum_setA acc.deposits tx d ⟨d.amount, .InDispute⟩ hd
    have h1 := hinv.1
    have hc : contribD d = 0 := by simp [contribD, hst]
    have hc' : contribD ⟨d.amount, .InDispute⟩ = d.amount := by simp [contribD]
    omega
  · intro k dd hk
    rcases lookupA_setA_cases hk with ⟨rfl, -⟩ | ⟨-, hk'⟩
    · exact hinv.2 _ _ hd
    · exact hinv.2 _ _ hk'

theorem resolve_AccInv {T : List Nat} {acc acc' : Account} {tx : Nat}
    (hinv : AccInv T acc) (h : acc.resolve_dispute tx = .ok acc') : AccInv T acc' := by
  obtain ⟨d, hd, hst, -, hle, rfl⟩ := resolve_ok_shape h
  constructor
  · show acc.held_amount - d.amount = heldSum (setA acc.deposits tx ⟨d.amount, .Valid⟩)
    have hs := heldSum_setA acc.deposits tx d ⟨d.amount, .Valid⟩ hd
    have h1 := hinv.1
    have hc : contribD d = d.amount := by simp [contribD, hst]
    have hc' : contribD ⟨d.amount, .Valid⟩ = 0 := by simp [contribD]
    omega
  · intro k dd hk
    rcases lookupA_setA_cases hk with ⟨rfl, -⟩ | ⟨-, hk'⟩
    · exact hinv.2 _ _ hd
    · exact hinv.2 _ _ hk'

theorem chargeback_AccInv {T : List Nat} {acc acc' : Account} {tx : Nat}
    (hinv : AccInv T acc) (h : acc.chargeback tx = .ok acc') : AccInv T acc' := by
  obtain ⟨d, hd, hst, hle, rfl⟩ := chargeback_ok_shape h
  constructor
  · show acc.held_amount - d.amount = heldSum (setA acc.deposits tx ⟨d.amount, .ChargedBack⟩)
    have hs := heldSum_setA acc.deposits tx d ⟨d.amount, .ChargedBack⟩ hd
    have h1 := hinv.1
    have hc : contribD d = d.amount := by simp [contribD, hst]
    have hc' : contribD ⟨d.amount, .ChargedBack⟩ = 0 := by simp [contribD]
    omega
  · intro k dd hk
    rcases lookupA_setA_cases hk with ⟨rfl, -⟩ | ⟨-, hk'⟩
    · exact hinv.2 _ _ hd
    · exact hinv.2 _ _ hk'

theorem process_EngInv {e : Engine} {t : Transaction} {e' : Engine}
    (hinv : EngInv e)
    (h : e.process_transaction t = .ok e' ∨ ∃ er, e.process_transaction t = .err er e') :
    EngInv e' := by
  cases t with
  | Deposit c tx a =>
    simp only [Engine.process_transaction] at h
    by_cases hdup : tx ∈ e.transactions
    · rw [if_pos hdup] at h
      rcases h with h | ⟨er, h⟩
      · cases h
      · cases h
        exact hinv
    · rw [if_neg hdup] at h
      rcases h with h | ⟨er, h⟩
      · obtain ⟨a', hdep, rfl⟩ := dispatch_ok_deposit h
        intro c' acc' hlk
        rcases lookupA_setA_cases hlk with ⟨rfl, rfl⟩ | ⟨-, hl'⟩
        · cases hl : lookupA e.accounts c' with
          | none =>
            rw [hl] at hdep
            refine deposit_AccInv (AccInv_new e.transactions) ?_ hdep ?_ ?_
            · simp [Account.new, lookupA]
            · exact List.mem_cons_self _ _
            · intro x hx
              exact List.mem_cons_of_mem _ hx
          | some acc0 =>
            rw [hl] at hdep
            have hinv0 := hinv c' acc0 hl
            refine deposit_AccInv hinv0 ?_ hdep ?_ ?_
            · cases hh : lookupA acc0.deposits tx with
              | none => rfl
              | some dd => exact absurd (hinv0.2 tx dd hh) hdup
            · exact List.mem_cons_self _ _
            · intro x hx
              exact List.mem_cons_of_mem _ hx
        · exact AccInv_mono (fun x hx => List.mem_cons_of_mem _ hx) (hinv c' acc' hl')
      · obtain ⟨hacc, htr, -⟩ := dispatch_err_state h
        intro c' acc' hlk
        rw [hacc] at hlk
        rw [htr]
        exact AccInv_mono (fun x hx => List.mem_cons_of_mem _ hx) (hinv c' acc' hlk)
  | Withdrawal c tx a =>
    simp only [Engine.process_transaction] at h
    by_cases hdup : tx ∈ e.transactions
    · rw [if_pos hdup] at h
      rcases h with h | ⟨er, h⟩
      · cases h
      · cases h
        exact hinv
    · rw [if_neg hdup] at h
      rcases h with h | ⟨er, h⟩
      · obtain ⟨acc0, a', hl, hop, rfl⟩ := dispatch_ok_withdrawal h
        intro c' acc' hlk
        rcases lookupA_setA_cases hlk with ⟨rfl, rfl⟩ | ⟨-, hl'⟩
        · exact AccInv_mono (fun x hx => List.mem_cons_of_mem _ hx)
            (withdraw_AccInv (hinv c' acc0 hl) hop)
        · exact AccInv_mono (fun x hx => List.mem_cons_of_mem _ hx) (hinv c' acc' hl')
      · obtain ⟨hacc, htr, -⟩ := dispatch_err_state h
        intro c' acc' hlk
        rw [hacc] at hlk
        rw [htr]
        exact AccInv_mono (fun x hx => List.mem_cons_of_mem _ hx) (hinv c' acc' hlk)
  | Dispute c tx =>
    simp only [Engine.process_transaction] at h
    rcases h with h | ⟨er, h⟩
    · obtain ⟨acc0, a', hl, hop, rfl⟩ := dispatch_ok_dispute h
      intro c' acc' hlk
      rcases lookupA_setA_cases hlk with ⟨rfl, rfl⟩ | ⟨-, hl'⟩
      · exact start_dispute_AccInv (hinv c' acc0 hl) hop
      · exact hinv c' acc' hl'
    · obtain ⟨hacc, htr, -⟩ := dispatch_err_state h
      intro c' acc' hlk
      rw [hacc] at hlk
      rw [htr]
      exact hinv c' acc' hlk
  | Resolve c tx =>
    simp only [Engine.process_transaction] at h
    rcases h with h | ⟨er, h⟩
    · obtain ⟨acc0, a', hl, hop, rfl⟩ := dispatch_ok_resolve h
      intro c' acc' hlk
      rcases lookupA_setA_cases hlk with ⟨rfl, rfl⟩ | ⟨-, hl'⟩
      · exact resolve_AccInv (hinv c' acc0 hl) hop
      · exact hinv c' acc' hl'
    · obtain ⟨hacc, htr, -⟩ := dispatch_err_state h
      intro c' acc' hlk
      rw [hacc] at hlk
      rw [htr]
      exact hinv c' acc' hlk
  | Chargeback c tx =>
    simp only [Engine.process_transaction] at h
    rcases h with h | ⟨er, h⟩
    · obtain ⟨acc0, a', hl, hop, rfl⟩ := dispatch_ok_chargeback h
      intro c' acc' hlk
      rcases lookupA_setA_cases hlk with ⟨rfl, rfl⟩ | ⟨-, hl'⟩
      · exact chargeback_AccInv (hinv c' acc0 hl) hop
      · exact hinv c' acc' hl'
    · obtain ⟨hacc, htr, -⟩ := dispatch_err_state h
      intro c' acc' hlk
      rw [hacc] at hlk
      rw [htr]
      exact hinv c' acc' hlk

theorem runE_EngInv : ∀ (ts : List Transaction) (e e' : Engine),
    runE ts e = some e' → EngInv e → EngInv e' := by
  intro ts
  induction ts with
  | nil =>
    intro e e' h hinv
    simp [runE] at h
    exact h ▸ hinv
  | cons t rest ih =>
    intro e e' h hinv
    unfold runE at h
    cases hp : e.process_transaction t with
    | ok e1 =>
      rw [hp] at h
      exact ih e1 e' h (process_EngInv hinv (Or.inl hp))
    | err er e1 =>
      rw [hp] at h
      exact ih e1 e' h (process_EngInv hinv (Or.inr ⟨er, hp⟩))
    | panic =>
      rw [hp] at h
      cases h

/-! Claim C2. -/

/-- C2: in every Engine state reachable by processing any sequence of
transaction records starting from `Engine::new`, every account's held balance
equals the sum of the amounts of that account's deposit records whose state is
`InDispute`. -/
theorem claim_C2 (ts : List Transaction) (e : Engine) (c : Nat) (acc : Account)
    (h1 : runE ts Engine.new = some e) (h2 : lookupA e.accounts c = some acc) :
    acc.held_amount = heldSum acc.deposits :=
  ((runE_EngInv ts Engine.new e h1 EngInv_new) c acc h2).1

/-- C2 witness: a concrete run ending with an account that has one deposit in
dispute. -/
theorem claim_C2_witness :
    (Account.mk 0 5 false [(1, ⟨5, .InDispute⟩)]).held_amount =
      heldSum (Account.mk 0 5 false [(1, ⟨5, .InDispute⟩)]).deposits :=
  claim_C2 [.Deposit 1 1 5, .Dispute 1 1]
    (Engine.mk [(1, Account.mk 0 5 false [(1, ⟨5, .InDispute⟩)])] [1]) 1
    (Account.mk 0 5 false [(1, ⟨5, .InDispute⟩)]) rfl rfl

/-! Claim C1. -/

/-- C1 (amended): a record rejected by `Engine::process_transaction` never
changes the accounts map, and leaves the used-id set unchanged as well, except
that a Deposit or Withdrawal rejected for a reason found after the
duplicate-id gate leaves its tx id newly inserted in `used_tx_ids`. -/
theorem claim_C1_amended (e : Engine) (t : Transaction) (er : EngineError) (e' : Engine)
    (h : e.process_transaction t = .err er e') :
    e'.accounts = e.accounts ∧
    (match t with
     | .Deposit _ tx _ | .Withdrawal _ tx _ =>
       if er = .DuplicateTransactionId then e' = e
       else e'.transactions = tx :: e.transactions
     | .Dispute _ _ | .Resolve _ _ | .Chargeback _ _ =>
       e'.transactions = e.transactions) := by
  cases t with
  | Deposit c tx a =>
    simp only [Engine.process_transaction] at h
    by_cases hdup : tx ∈ e.transactions
    · rw [if_pos hdup] at h
      cases h
      exact ⟨rfl, by simp⟩
    · rw [if_neg hdup] at h
      obtain ⟨hacc, htr, hner⟩ := dispatch_err_state h
      refine ⟨hacc, ?_⟩
      show if er = EngineError.DuplicateTransactionId then e' = e
        else e'.transactions = tx :: e.transactions
      rw [if_neg hner]
      exact htr
  | Withdrawal c tx a =>
    simp only [Engine.process_transaction] at h
    by_cases hdup : tx ∈ e.transactions
    · rw [if_pos hdup] at h
      cases h
      exact ⟨rfl, by simp⟩
    · rw [if_neg hdup] at h
      obtain ⟨hacc, htr, hner⟩ := dispatch_err_state h
      refine ⟨hacc, ?_⟩
      show if er = EngineError.DuplicateTransactionId then e' = e
        else e'.transactions = tx :: e.transactions
      rw [if_neg hner]
      exact htr
  | Dispute c tx =>
    simp only [Engine.process_transaction] at h
    obtain ⟨hacc, htr, -⟩ := dispatch_err_state h
    exact ⟨hacc, htr⟩
  | Resolve c tx =>
    simp only [Engine.process_transaction] at h
    obtain ⟨hacc, htr, -⟩ := dispatch_err_state h
    exact ⟨hacc, htr⟩
  | Chargeback c tx =>
    simp only [Engine.process_transaction] at h
    obtain ⟨hacc, htr, -⟩ := dispatch_err_state h
    exact ⟨hacc, htr⟩

/-- C1 witness: a deposit on a locked account is rejected with the accounts
map intact and the tx id consumed. -/
theorem claim_C1_witness :
    (Engine.mk [(1, Account.mk 0 0 true [(1, ⟨10, .ChargedBack⟩)])] [2, 1]).accounts =
      (Engine.mk [(1, Account.mk 0 0 true [(1, ⟨10, .ChargedBack⟩)])] [1]).accounts ∧
    (Engine.mk [(1, Account.mk 0 0 true [(1, ⟨10, .ChargedBack⟩)])] [2, 1]).transactions =
      2 :: (Engine.mk [(1, Account.mk 0 0 true [(1, ⟨10, .ChargedBack⟩)])] [1]).transactions := by
  have h := claim_C1_amended
    (Engine.mk [(1, Account.mk 0 0 true [(1, ⟨10, .ChargedBack⟩)])] [1])
    (.Deposit 1 2 5) .AccountLocked
    (Engine.mk [(1, Account.mk 0 0 true [(1, ⟨10, .ChargedBack⟩)])] [2, 1]) rfl
  exact ⟨h.1, h.2⟩

/-- C1 counterexample: in a reachable state with a locked account, a rejected
deposit (error `AccountLocked`) leaves the engine in a state different from
the one before the call — the tx id was inserted into `used_tx_ids`. -/
theorem claim_C1_counterexample :
    runE [.Deposit 1 1 10, .Dispute 1 1, .Chargeback 1 1] Engine.new =
      some (Engine.mk [(1, Account.mk 0 0 true [(1, ⟨10, .ChargedBack⟩)])] [1]) ∧
    (Engine.mk [(1, Account.mk 0 0 true [(1, ⟨10, .ChargedBack⟩)])] [1]).process_transaction
        (.Deposit 1 2 5) =
      .err .AccountLocked
        (Engine.mk [(1, Account.mk 0 0 true [(1, ⟨10, .ChargedBack⟩)])] [2, 1]) ∧
    Engine.mk [(1, Account.mk 0 0 true [(1, ⟨10, .ChargedBack⟩)])] [2, 1] ≠
      Engine.mk [(1, Account.mk 0 0 true [(1, ⟨10, .ChargedBack⟩)])] [1] := by
  refine ⟨by decide, by decide, by decide⟩

/-! Claim C5. -/

/-- C5 (amended): for every account state (fields in their machine ranges, as
Rust's types guarantee) and every amount below `2^63` (so that the `as i64`
cast preserves the value): withdraw fails with `AccountLocked` when the
account is locked; otherwise fails with `InsufficientFunds` when
`available < amount`; otherwise succeeds and decreases `available` by exactly
`amount`.  Every failing case returns the account unchanged (same available,
held, locked and deposits). -/
theorem claim_C5_amended (acc : Account) (amount : Nat)
    (hav1 : -(2 ^ 63) ≤ acc.available_amount) (hav2 : acc.available_amount < 2 ^ 63)
    (ham : amount < 2 ^ 63) :
    (acc.locked = true → acc.withdraw amount = .err .AccountLocked acc) ∧
    (acc.locked = false → acc.available_amount < (amount : Int) →
      acc.withdraw amount = .err .InsufficientFunds acc) ∧
    (acc.locked = false → (amount : Int) ≤ acc.available_amount →
      acc.withdraw amount =
        .ok { acc with available_amount := acc.available_amount - (amount : Int) }) := by
  refine ⟨?_, ?_, ?_⟩
  · intro hl
    unfold Account.withdraw
    rw [if_pos hl]
  · intro hl hlt
    unfold Account.withdraw
    rw [if_neg (by simp [hl]), i64cast_of_lt ham, if_neg (not_le.mpr hlt)]
  · intro hl hle
    unfold Account.withdraw
    rw [if_neg (by simp [hl]), i64cast_of_lt ham, if_pos hle,
      if_pos (i64InRange_eq_true (by omega) (by omega))]

/-- C5 witness: a plain successful withdrawal. -/
theorem claim_C5_witness :
    (Account.mk 100 0 false []).withdraw 30 = .ok (Account.mk 70 0 false []) := by
  have h := (claim_C5_amended (Account.mk 100 0 false []) 30 (by norm_num) (by norm_num)
    (by norm_num)).2.2 rfl (by norm_num)
  exact h.trans (by decide)

/-- C5 counterexample: for `amount = 2^63` on a fresh unlocked account the
claim demands `InsufficientFunds` (available `0 < 2^63`), but the code
compares against `amount as i64 = -2^63`, takes the success branch and panics
on `i64` overflow. -/
theorem claim_C5_counterexample :
    Account.new.withdraw (2 ^ 63) = .panic ∧
    Account.new.withdraw (2 ^ 63) ≠ .err .InsufficientFunds Account.new := by
  exact ⟨by decide, by decide⟩

/-! Claim C6. -/

/-- C6 (amended): for every account (fields in machine range) holding a
deposit of amount `a < 2^63` in state `Valid`, provided the arithmetic stays
in range (`held + a < 2^64`, `available - a ≥ -2^63`): `start_dispute` moves
exactly `a` from available to held (available may go negative); a subsequent
`resolve_dispute` restores the account exactly; a subsequent `chargeback`
instead removes `a` from held, leaves available unchanged and locks the
account; and every failure of the three operations returns the account
unchanged. -/
theorem claim_C6_amended (acc : Account) (tx a : Nat)
    (hdep : lookupA acc.deposits tx = some ⟨a, .Valid⟩)
    (ha : a < 2 ^ 63)
    (hheld : acc.held_amount + a < 2 ^ 64)
    (hav1 : -(2 ^ 63) ≤ acc.available_amount) (hav2 : acc.available_amount < 2 ^ 63)
    (hlow : -(2 ^ 63) ≤ acc.available_amount - (a : Int)) :
    acc.start_dispute tx =
      .ok { acc with
            deposits := setA acc.deposits tx ⟨a, .InDispute⟩,
            available_amount := acc.available_amount - (a : Int),
            held_amount := acc.held_amount + a } ∧
    ({ acc with
       deposits := setA acc.deposits tx ⟨a, .InDispute⟩,
       available_amount := acc.available_amount - (a : Int),
       held_amount := acc.held_amount + a } : Account).resolve_dispute tx = .ok acc ∧
    ({ acc with
       deposits := setA acc.deposits tx ⟨a, .InDispute⟩,
       available_amount := acc.available_amount - (a : Int),
       held_amount := acc.held_amount + a } : Account).chargeback tx =
      .ok { acc with
            deposits := setA acc.deposits tx ⟨a, .ChargedBack⟩,
            available_amount := acc.available_amount - (a : Int),
            locked := true } ∧
    (∀ (b : Account) (tx' : Nat) (er : EngineError) (b' : Account),
      (b.start_dispute tx' = .err er b' → b' = b) ∧
      (b.resolve_dispute tx' = .err er b' → b' = b) ∧
      (b.chargeback tx' = .err er b' → b' = b)) := by
  refine ⟨?_, ?_, ?_, ?_⟩
  · simp only [Account.start_dispute, hdep]
    rw [i64cast_of_lt ha, if_pos (i64InRange_eq_true hlow (by omega)), if_pos hheld]
  · simp only [Account.resolve_dispute, lookupA_setA_self]
    rw [i64cast_of_lt ha]
    have hres : acc.available_amount - (a : Int) + (a : Int) = acc.available_amount := by
      ring
    rw [hres, if_pos (i64InRange_eq_true hav1 hav2), if_pos (Nat.le_add_left a _)]
    rw [setA_setA, setA_lookup_eq _ _ _ hdep]
    have hh : acc.held_amount + a - a = acc.held_amount := by omega
    rw [hh]
  · simp only [Account.chargeback, lookupA_setA_self]
    rw [if_pos (Nat.le_add_left a _), setA_setA]
    have hh : acc.held_amount + a - a = acc.held_amount := by omega
    rw [hh]
  · intro b tx' er b'
    exact ⟨fun h => (start_dispute_err_shape h).1,
           fun h => (resolve_err_shape h).1,
           fun h => (chargeback_err_shape h).1⟩

/-- C6 witness: dispute, resolve and chargeback of a concrete deposit. -/
theorem claim_C6_witness :
    (Account.mk 0 0 false [(1, ⟨5, .Valid⟩)]).start_dispute 1 =
      .ok (Account.mk (-5) 5 false [(1, ⟨5, .InDispute⟩)]) ∧
    (Account.mk (-5) 5 false [(1, ⟨5, .InDispute⟩)]).resolve_dispute 1 =
      .ok (Account.mk 0 0 false [(1, ⟨5, .Valid⟩)]) ∧
    (Account.mk (-5) 5 false [(1, ⟨5, .InDispute⟩)]).chargeback 1 =
      .ok (Account.mk (-5) 0 true [(1, ⟨5, .ChargedBack⟩)]) := by
  have h := claim_C6_amended (Account.mk 0 0 false [(1, ⟨5, .Valid⟩)]) 1 5
    rfl (by norm_num) (by norm_num) (by norm_num) (by norm_num) (by norm_num)
  refine ⟨h.1.trans (by decide), ?_, ?_⟩
  · have h2 := h.2.1
    exact (by decide : (Account.mk (-5) 5 false [(1, ⟨5, .InDispute⟩)]) =
      ({ Account.mk 0 0 false [(1, ⟨5, .Valid⟩)] with
         deposits := setA [(1, (⟨5, .Valid⟩ : Deposit))] 1 ⟨5, .InDispute⟩,
         available_amount := (0 : Int) - (5 : Nat),
         held_amount := 0 + 5 } : Account)) ▸ h2
  · have h3 := h.2.2.1
    exact ((by decide : (Account.mk (-5) 5 false [(1, ⟨5, .InDispute⟩)]) =
      ({ Account.mk 0 0 false [(1, ⟨5, .Valid⟩)] with
         deposits := setA [(1, (⟨5, .Valid⟩ : Deposit))] 1 ⟨5, .InDispute⟩,
         available_amount := (0 : Int) - (5 : Nat),
         held_amount := 0 + 5 } : Account)) ▸ h3).trans (by decide)

/-- C6 counterexample: a `Valid` deposit of amount `2^63` — the claim demands
that `start_dispute` succeed and move `2^63` from available to held, but the
code panics (`available -= amount as i64` overflows `i64` in the checked
profile). -/
theorem claim_C6_counterexample :
    (Account.mk 0 0 false [(1, ⟨2 ^ 63, .Valid⟩)]).start_dispute 1 = .panic ∧
    (Account.mk 0 0 false [(1, ⟨2 ^ 63, .Valid⟩)]).start_dispute 1 ≠
      .ok (Account.mk (-(2 ^ 63)) (2 ^ 63) false [(1, ⟨2 ^ 63, .InDispute⟩)]) := by
  exact ⟨by decide, by decide⟩

/-! Claim C9. -/

/-- C9 (amended): a locked account does not block dispute operations — for
every locked account holding a `Valid` deposit of amount `a < 2^63`, with the
arithmetic in range, `start_dispute` succeeds (and keeps the account locked) —
whereas `deposit` and `withdraw` on a locked account always fail with
`AccountLocked`. -/
theorem claim_C9_amended (acc : Account) (tx a : Nat)
    (hlk : acc.locked = true)
    (hdep : lookupA acc.deposits tx = some ⟨a, .Valid⟩)
    (ha : a < 2 ^ 63)
    (hheld : acc.held_amount + a < 2 ^ 64)
    (hlow : -(2 ^ 63) ≤ acc.available_amount - (a : Int))
    (hav2 : acc.available_amount < 2 ^ 63) :
    acc.start_dispute tx =
      .ok { acc with
            deposits := setA acc.deposits tx ⟨a, .InDispute⟩,
            available_amount := acc.available_amount - (a : Int),
            held_amount := acc.held_amount + a } ∧
    ({ acc with
       deposits := setA acc.deposits tx ⟨a, .InDispute⟩,
       available_amount := acc.available_amount - (a : Int),
       held_amount := acc.held_amount + a } : Account).locked = true ∧
    (∀ (b : Account) (tx' amt : Nat), b.locked = true →
      b.deposit tx' amt = .err .AccountLocked b ∧
      b.withdraw amt = .err .AccountLocked b) := by
  refine ⟨?_, hlk, ?_⟩
  · simp only [Account.start_dispute, hdep]
    rw [i64cast_of_lt ha, if_pos (i64InRange_eq_true hlow (by omega)), if_pos hheld]
  · intro b tx' amt hb
    constructor
    · unfold Account.deposit
      rw [if_pos hb]
    · unfold Account.withdraw
      rw [if_pos hb]

/-- C9 witness: a dispute succeeds on a locked account where deposit and
withdrawal are rejected. -/
theorem claim_C9_witness :
    (Account.mk 10 0 true [(1, ⟨5, .Valid⟩)]).start_dispute 1 =
      .ok (Account.mk 5 5 true [(1, ⟨5, .InDispute⟩)]) ∧
    (Account.mk 10 0 true [(1, ⟨5, .Valid⟩)]).deposit 2 7 =
      .err .AccountLocked (Account.mk 10 0 true [(1, ⟨5, .Valid⟩)]) ∧
    (Account.mk 10 0 true [(1, ⟨5, .Valid⟩)]).withdraw 7 =
      .err .AccountLocked (Account.mk 10 0 true [(1, ⟨5, .Valid⟩)]) := by
  have h := claim_C9_amended (Account.mk 10 0 true [(1, ⟨5, .Valid⟩)]) 1 5
    rfl rfl (by norm_num) (by norm_num) (by norm_num) (by norm_num)
  have h2 := h.2.2 (Account.mk 10 0 true [(1, ⟨5, .Valid⟩)]) 2 7 rfl
  exact ⟨h.1.trans (by decide), h2.1, (h.2.2 _ 2 7 rfl).2⟩

/-- C9 counterexample: on a locked account holding a `Valid` deposit of amount
`2^63`, the claim demands that `start_dispute` succeed, but the code panics on
`i64` overflow. -/
theorem claim_C9_counterexample :
    (Account.mk 0 0 true [(1, ⟨2 ^ 63, .Valid⟩)]).start_dispute 1 = .panic ∧
    (Account.mk 0 0 true [(1, ⟨2 ^ 63, .Valid⟩)]).start_dispute 1 ≠
      .ok (Account.mk (-(2 ^ 63)) (2 ^ 63) true [(1, ⟨2 ^ 63, .InDispute⟩)]) := by
  exact ⟨by decide, by decide⟩

/-! Claims C7 and C8: the uniqueness gate and account creation. -/

/-- Rewraps the state carried by a non-panic result. -/
def PRes.mapE {α : Type} (f : α → α) : PRes α → PRes α
| .ok a => .ok (f a)
| .err e a => .err e (f a)
| .panic => .panic

theorem process_trans_mem {e : Engine} {t : Transaction} {e' : Engine}
    (h : e.process_transaction t = .ok e' ∨ ∃ er, e.process_transaction t = .err er e') :
    ∀ x, x ∈ e'.transactions ↔ (x ∈ e.transactions ∨ usesTxId t x = true) := by
  cases t with
  | Deposit c tx a =>
    simp only [Engine.process_transaction] at h
    by_cases hdup : tx ∈ e.transactions
    · rw [if_pos hdup] at h
      rcases h with h | ⟨er, h⟩
      · cases h
      · cases h
        intro x
        simp only [usesTxId, decide_eq_true_eq]
        constructor
        · exact fun hx => Or.inl hx
        · rintro (hx | rfl)
          · exact hx
          · exact hdup
    · rw [if_neg hdup] at h
      have htr : e'.transactions = tx :: e.transactions := by
        rcases h with h | ⟨er, h⟩
        · exact dispatch_ok_trans h
        · exact (dispatch_err_state h).2.1
      intro x
      rw [htr]
      simp only [List.mem_cons, usesTxId, decide_eq_true_eq]
      constructor
      · rintro (rfl | hx)
        · exact Or.inr rfl
        · exact Or.inl hx
      · rintro (hx | rfl)
        · exact Or.inr hx
        · exact Or.inl rfl
  | Withdrawal c tx a =>
    simp only [Engine.process_transaction] at h
    by_cases hdup : tx ∈ e.transactions
    · rw [if_pos hdup] at h
      rcases h with h | ⟨er, h⟩
      · cases h
      · cases h
        intro x
        simp only [usesTxId, decide_eq_true_eq]
        constructor
        · exact fun hx => Or.inl hx
        · rintro (hx | rfl)
          · exact hx
          · exact hdup
    · rw [if_neg hdup] at h
      have htr : e'.transactions = tx :: e.transactions := by
        rcases h with h | ⟨er, h⟩
        · exact dispatch_ok_trans h
        · exact (dispatch_err_state h).2.1
      intro x
      rw [htr]
      simp only [List.mem_cons, usesTxId, decide_eq_true_eq]
      constructor
      · rintro (rfl | hx)
        · exact Or.inr rfl
        · exact Or.inl hx
      · rintro (hx | rfl)
        · exact Or.inr hx
        · exact Or.inl rfl
  | Dispute c tx =>
    simp only [Engine.process_transaction] at h
    have htr : e'.transactions = e.transactions := by
      rcases h with h | ⟨er, h⟩
      · exact dispatch_ok_trans h
      · exact (dispatch_err_state h).2.1
    intro x
    rw [htr]
    simp [usesTxId]
  | Resolve c tx =>
    simp only [Engine.process_transaction] at h
    have htr : e'.transactions = e.transactions := by
      rcases h with h | ⟨er, h⟩
      · exact dispatch_ok_trans h
      · exact (dispatch_err_state h).2.1
    intro x
    rw [htr]
    simp [usesTxId]
  | Chargeback c tx =>
    simp only [Engine.process_transaction] at h
    have htr : e'.transactions = e.transactions := by
      rcases h with h | ⟨er, h⟩
      · exact dispatch_ok_trans h
      · exact (dispatch_err_state h).2.1
    intro x
    rw [htr]
    simp [usesTxId]

theorem runE_trans_mem : ∀ (ts : List Transaction) (e0 e : Engine),
    runE ts e0 = some e →
    ∀ x, x ∈ e.transactions ↔
      (x ∈ e0.transactions ∨ ∃ t ∈ ts, usesTxId t x = true) := by
  intro ts
  induction ts with
  | nil =>
    intro e0 e h x
    simp [runE] at h
    subst h
    simp
  | cons t rest ih =>
    intro e0 e h x
    unfold runE at h
    have main : ∀ e1, (e0.process_transaction t = .ok e1 ∨
        ∃ er, e0.process_transaction t = .err er e1) → runE rest e1 = some e →
        (x ∈ e.transactions ↔
          (x ∈ e0.transactions ∨ ∃ t' ∈ t :: rest, usesTxId t' x = true)) := by
      intro e1 hp hrun
      have hm := process_trans_mem hp x
      have hr := ih e1 e hrun x
      rw [hr, hm]
      constructor
      · rintro ((hx | hx) | ⟨t', ht', hu⟩)
        · exact Or.inl hx
        · exact Or.inr ⟨t, List.mem_cons_self _ _, hx⟩
        · exact Or.inr ⟨t', List.mem_cons_of_mem _ ht', hu⟩
      · rintro (hx | ⟨t', ht', hu⟩)
        · exact Or.inl (Or.inl hx)
        · rcases List.mem_cons.mp ht' with rfl | ht''
          · exact Or.inl (Or.inr hu)
          · exact Or.inr ⟨t', ht'', hu⟩
    cases hp : e0.process_transaction t with
    | ok e1 =>
      rw [hp] at h
      exact main e1 (Or.inl hp) h
    | err er e1 =>
      rw [hp] at h
      exact main e1 (Or.inr ⟨er, hp⟩) h
    | panic =>
      rw [hp] at h
      cases h

/-- C7: in every reachable state the used-id set holds exactly the tx ids of
the Deposit and Withdrawal records seen so far (accepted or not, any client);
a Deposit or Withdrawal whose tx id is in that set is rejected with
`DuplicateTransactionId` with the engine state exactly unchanged; and
processing a Dispute, Resolve or Chargeback neither reads nor writes the
used-id set (the outcome is the same for any value of the set, which is
returned unchanged). -/
theorem claim_C7 :
    (∀ (ts : List Transaction) (e : Engine), runE ts Engine.new = some e →
      ∀ tx, tx ∈ e.transactions ↔ ∃ t ∈ ts, usesTxId t tx = true) ∧
    (∀ (e : Engine) (c tx a : Nat), tx ∈ e.transactions →
      e.process_transaction (.Deposit c tx a) = .err .DuplicateTransactionId e ∧
      e.process_transaction (.Withdrawal c tx a) = .err .DuplicateTransactionId e) ∧
    (∀ (A : List (Nat × Account)) (T T' : List Nat) (c tx : Nat),
      Engine.process_transaction ⟨A, T'⟩ (.Dispute c tx) =
        (Engine.process_transaction ⟨A, T⟩ (.Dispute c tx)).mapE
          (fun e1 => { e1 with transactions := T' }) ∧
      Engine.process_transaction ⟨A, T'⟩ (.Resolve c tx) =
        (Engine.process_transaction ⟨A, T⟩ (.Resolve c tx)).mapE
          (fun e1 => { e1 with transactions := T' }) ∧
      Engine.process_transaction ⟨A, T'⟩ (.Chargeback c tx) =
        (Engine.process_transaction ⟨A, T⟩ (.Chargeback c tx)).mapE
          (fun e1 => { e1 with transactions := T' })) := by
  refine ⟨?_, ?_, ?_⟩
  · intro ts e h tx
    have := runE_trans_mem ts Engine.new e h tx
    simpa [Engine.new] using this
  · intro e c tx a htx
    constructor <;>
      (simp only [Engine.process_transaction]; rw [if_pos htx])
  · intro A T T' c tx
    refine ⟨?_, ?_, ?_⟩
    · simp only [Engine.process_transaction, Engine.dispatch]
      cases hl : lookupA A c with
      | none => simp [PRes.mapE]
      | some acc0 =>
        cases hop : acc0.start_dispute tx <;> simp [hop, PRes.mapE]
    · simp only [Engine.process_transaction, Engine.dispatch]
      cases hl : lookupA A c with
      | none => simp [PRes.mapE]
      | some acc0 =>
        cases hop : acc0.resolve_dispute tx <;> simp [hop, PRes.mapE]
    · simp only [Engine.process_transaction, Engine.dispatch]
      cases hl : lookupA A c with
      | none => simp [PRes.mapE]
      | some acc0 =>
        cases hop : acc0.chargeback tx <;> simp [hop, PRes.mapE]

/-- C7 witness: a duplicate deposit is rejected with the state unchanged, and
the used-id set of a concrete run is described exactly. -/
theorem claim_C7_witness :
    (Engine.mk [] [7]).process_transaction (.Deposit 1 7 5) =
      .err .DuplicateTransactionId (Engine.mk [] [7]) ∧
    (7 ∈ (Engine.mk [(1, Account.mk 10 0 false [(7, ⟨10, .Valid⟩)])] [7]).transactions ↔
      ∃ t ∈ [Transaction.Deposit 1 7 10], usesTxId t 7 = true) := by
  refine ⟨(claim_C7.2.1 (Engine.mk [] [7]) 1 7 5 (by decide)).1, ?_⟩
  exact claim_C7.1 [.Deposit 1 7 10]
    (Engine.mk [(1, Account.mk 10 0 false [(7, ⟨10, .Valid⟩)])] [7]) rfl 7

/-- `Account::new.deposit` always succeeds: a fresh account is unlocked and
the checked add `0 + (amount as i64)` is in range for every `u64` amount. -/
theorem new_deposit_eq (tx a : Nat) (ha : a < 2 ^ 64) :
    Account.new.deposit tx a = .ok ⟨i64cast a, 0, false, [(tx, ⟨a, .Valid⟩)]⟩ := by
  unfold Account.deposit
  rw [if_neg (by decide : ¬(Account.new.locked = true))]
  rw [show Account.new.available_amount + i64cast a = i64cast a from by
    simp [Account.new]]
  rw [if_pos (i64InRange_cast a ha)]
  rfl

/-- C8 (amended): in a state where a client has no account, a Deposit whose
tx id is fresh creates a zeroed account and applies the deposit to it, a
Withdrawal whose tx id is fresh fails with `AccountNotFound` creating no
account, and Dispute/Resolve/Chargeback always fail with `AccountNotFound`
leaving the state unchanged.  (A Deposit or Withdrawal whose tx id is already
used is instead rejected by the duplicate gate, creating nothing.) -/
theorem claim_C8_amended (e : Engine) (c : Nat)
    (hno : lookupA e.accounts c = none) :
    (∀ tx a, tx ∉ e.transactions → a < 2 ^ 64 →
      e.process_transaction (.Deposit c tx a) =
        .ok ⟨setA e.accounts c ⟨i64cast a, 0, false, [(tx, ⟨a, .Valid⟩)]⟩,
             tx :: e.transactions⟩) ∧
    (∀ tx a, tx ∉ e.transactions →
      e.process_transaction (.Withdrawal c tx a) =
        .err .AccountNotFound ⟨e.accounts, tx :: e.transactions⟩) ∧
    (∀ tx, e.process_transaction (.Dispute c tx) = .err .AccountNotFound e) ∧
    (∀ tx, e.process_transaction (.Resolve c tx) = .err .AccountNotFound e) ∧
    (∀ tx, e.process_transaction (.Chargeback c tx) = .err .AccountNotFound e) := by
  refine ⟨?_, ?_, ?_, ?_, ?_⟩
  · intro tx a htx ha
    simp only [Engine.process_transaction]
    rw [if_neg htx]
    simp only [Engine.dispatch, hno, Option.getD_none, new_deposit_eq tx a ha]
  · intro tx a htx
    simp only [Engine.process_transaction]
    rw [if_neg htx]
    simp only [Engine.dispatch, hno]
  · intro tx
    simp only [Engine.process_transaction, Engine.dispatch, hno]
  · intro tx
    simp only [Engine.process_transaction, Engine.dispatch, hno]
  · intro tx
    simp only [Engine.process_transaction, Engine.dispatch, hno]

/-- C8 witness: a deposit for an unknown client creates the account; a dispute
for an unknown client is rejected without creating one. -/
theorem claim_C8_witness :
    (Engine.mk [] []).process_transaction (.Deposit 1 1 5) =
      .ok (Engine.mk [(1, Account.mk 5 0 false [(1, ⟨5, .Valid⟩)])] [1]) ∧
    (Engine.mk [] []).process_transaction (.Dispute 1 1) =
      .err .AccountNotFound (Engine.mk [] []) := by
  have h := claim_C8_amended (Engine.mk [] []) 1 rfl
  exact ⟨(h.1 1 5 (by decide) (by norm_num)).trans (by decide), h.2.2.1 1⟩

/-- C8 counterexample: in a reachable state where client 2 has no account, a
Withdrawal for client 2 reusing tx id 7 fails with `DuplicateTransactionId`,
not with `AccountNotFound` as the claim states. -/
theorem claim_C8_counterexample :
    runE [.Deposit 1 7 10] Engine.new =
      some (Engine.mk [(1, Account.mk 10 0 false [(7, ⟨10, .Valid⟩)])] [7]) ∧
    lookupA (Engine.mk [(1, Account.mk 10 0 false [(7, ⟨10, .Valid⟩)])] [7]).accounts 2 =
      none ∧
    (Engine.mk [(1, Account.mk 10 0 false [(7, ⟨10, .Valid⟩)])] [7]).process_transaction
        (.Withdrawal 2 7 5) =
      .err .DuplicateTransactionId
        (Engine.mk [(1, Account.mk 10 0 false [(7, ⟨10, .Valid⟩)])] [7]) ∧
    EngineError.DuplicateTransactionId ≠ EngineError.AccountNotFound := by
  exact ⟨by decide, by decide, by decide, by decide⟩

/-! Decimal formatting and parsing lemmas. -/

theorem char_ofNat_digit_toNat {d : Nat} (hd : d < 10) :
    (Char.ofNat (48 + d)).toNat = 48 + d := by
  interval_cases d <;> decide

theorem isDigitC_ofNat {d : Nat} (hd : d < 10) :
    isDigitC (Char.ofNat (48 + d)) = true := by
  unfold isDigitC
  rw [char_ofNat_digit_toNat hd]
  simp only [Bool.and_eq_true, decide_eq_true_eq]
  omega

theorem digitVal_ofNat {d : Nat} (hd : d < 10) :
    digitVal (Char.ofNat (48 + d)) = d := by
  unfold digitVal
  rw [char_ofNat_digit_toNat hd]
  omega

theorem natDec_all_digits (n : Nat) : ∀ c ∈ natDec n, isDigitC c = true := by
  intro c hc
  unfold natDec at hc
  by_cases h0 : n = 0
  · rw [if_pos h0] at hc
    simp at hc
    subst hc
    decide
  · rw [if_neg h0] at hc
    simp only [List.mem_map, List.mem_reverse] at hc
    obtain ⟨d, hd, rfl⟩ := hc
    exact isDigitC_ofNat (Nat.digits_lt_base (by norm_num) hd)

theorem natDec_ne_nil (n : Nat) : natDec n ≠ [] := by
  unfold natDec
  by_cases h0 : n = 0
  · simp [h0]
  · rw [if_neg h0]
    intro h
    rw [List.map_eq_nil_iff, List.reverse_eq_nil_iff] at h
    exact Nat.digits_ne_nil_iff_ne_zero.mpr h0 h

theorem digit_ne_dot {c : Char} (h : isDigitC c = true) : ¬ c = '.' := by
  intro hc
  subst hc
  simp [isDigitC] at h

theorem digit_ne_plus {c : Char} (h : isDigitC c = true) : ¬ c = '+' := by
  intro hc
  subst hc
  simp [isDigitC] at h

theorem dot_not_mem_of_digits (s : List Char) (h : ∀ c ∈ s, isDigitC c = true) :
    ('.' : Char) ∉ s :=
  fun hc => digit_ne_dot (h _ hc) rfl

theorem foldl_digits_map (L : List Nat) (hL : ∀ d ∈ L, d < 10) (acc : Nat) :
    List.foldl (fun a c => 10 * a + digitVal c) acc
        (L.map (fun d => Char.ofNat (48 + d))) =
      List.foldl (fun a d => 10 * a + d) acc L := by
  induction L generalizing acc with
  | nil => rfl
  | cons d L ih =>
    simp only [List.map_cons, List.foldl_cons]
    rw [digitVal_ofNat (hL d (List.mem_cons_self _ _))]
    exact ih (fun x hx => hL x (List.mem_cons_of_mem _ hx)) _

theorem foldl_reverse_ofDigits (L : List Nat) (acc : Nat) :
    List.foldl (fun a d => 10 * a + d) acc L.reverse =
      acc * 10 ^ L.length + Nat.ofDigits 10 L := by
  induction L generalizing acc with
  | nil => simp
  | cons d L ih =>
    simp only [List.reverse_cons, List.foldl_append, List.foldl_cons, List.foldl_nil,
      List.length_cons, Nat.ofDigits_cons, ih]
    ring

theorem digitsToNat_natDec (n : Nat) : digitsToNat (natDec n) = n := by
  unfold natDec
  by_cases h0 : n = 0
  · subst h0
    decide
  · rw [if_neg h0]
    unfold digitsToNat
    rw [foldl_digits_map _ (fun d hd => Nat.digits_lt_base (by norm_num)
      (List.mem_reverse.mp hd)), foldl_reverse_ofDigits]
    simp [Nat.ofDigits_digits]

theorem parse_u64_digits (s : List Char) (hne : s ≠ [])
    (hdig : ∀ c ∈ s, isDigitC c = true) :
    parse_u64 s =
      if digitsToNat s < 2 ^ 64 then some (digitsToNat s) else none := by
  unfold parse_u64
  cases s with
  | nil => exact absurd rfl hne
  | cons c cs =>
    dsimp only
    rw [if_neg (digit_ne_plus (hdig c (List.mem_cons_self _ _)))]
    rw [if_neg (by simp : ¬((c :: cs).isEmpty = true))]
    rw [if_pos (List.all_eq_true.mpr hdig)]

theorem parse_u64_natDec (n : Nat) (hn : n < 2 ^ 64) :
    parse_u64 (natDec n) = some n := by
  rw [parse_u64_digits _ (natDec_ne_nil n) (natDec_all_digits n), digitsToNat_natDec,
    if_pos hn]

theorem foldl_replicate_zero (k : Nat) :
    List.foldl (fun a c => 10 * a + digitVal c) 0 (List.replicate k '0') = 0 := by
  induction k with
  | zero => rfl
  | succ k ih =>
    rw [List.replicate_succ, List.foldl_cons]
    simpa using ih

theorem digitsToNat_replicate_zero (k : Nat) (s : List Char) :
    digitsToNat (List.replicate k '0' ++ s) = digitsToNat s := by
  unfold digitsToNat
  rw [List.foldl_append, foldl_replicate_zero]

theorem pad4_length (s : List Char) (h : s.length ≤ 4) : (pad4 s).length = 4 := by
  simp only [pad4, List.length_append, List.length_replicate]
  omega

theorem pad4_all_digits (s : List Char) (h : ∀ c ∈ s, isDigitC c = true) :
    ∀ c ∈ pad4 s, isDigitC c = true := by
  intro c hc
  simp only [pad4, List.mem_append, List.mem_replicate] at hc
  rcases hc with ⟨-, rfl⟩ | hc
  · decide
  · exact h c hc

theorem digitsToNat_pad4 (s : List Char) : digitsToNat (pad4 s) = digitsToNat s :=
  digitsToNat_replicate_zero _ _

theorem natDec_length_le (n : Nat) (hn : n < 10 ^ 4) : (natDec n).length ≤ 4 := by
  unfold natDec
  by_cases h0 : n = 0
  · simp [h0]
  · rw [if_neg h0]
    simp only [List.length_map, List.length_reverse]
    rw [Nat.digits_len 10 n (by norm_num) h0]
    have := Nat.log_lt_of_lt_pow h0 hn
    omega

theorem utf8Bytes_digit {c : Char} (h : isDigitC c = true) : utf8Bytes c = 1 := by
  simp only [isDigitC, Bool.and_eq_true, decide_eq_true_eq] at h
  unfold utf8Bytes
  rw [if_pos (by omega)]

theorem utf8Len_digits (s : List Char) (h : ∀ c ∈ s, isDigitC c = true) :
    utf8Len s = s.length := by
  induction s with
  | nil => rfl
  | cons c cs ih =>
    simp only [utf8Len, List.map_cons, List.sum_cons] at *
    rw [utf8Bytes_digit (h c (List.mem_cons_self _ _)),
      ih (fun x hx => h x (List.mem_cons_of_mem _ hx))]
    simp only [List.length_cons]
    omega

theorem takeBytes_ones (n : Nat) (s : List Char) (h : ∀ c ∈ s, utf8Bytes c = 1)
    (hn : n ≤ s.length) : takeBytes n s = some (s.take n) := by
  induction s generalizing n with
  | nil =>
    cases n with
    | zero => rfl
    | succ n => simp at hn
  | cons c cs ih =>
    cases n with
    | zero => rfl
    | succ n =>
      unfold takeBytes
      rw [h c (List.mem_cons_self _ _)]
      rw [if_pos (by omega)]
      simp only [Nat.add_sub_cancel]
      rw [ih n (fun x hx => h x (List.mem_cons_of_mem _ hx)) (by simpa using hn)]
      simp

theorem first_four_digits (s : List Char) (hdig : ∀ c ∈ s, isDigitC c = true) :
    first_four_chars_or_pad s =
      some ((s ++ List.replicate (4 - s.length) '0').take 4) := by
  unfold first_four_chars_or_pad
  rw [utf8Len_digits s hdig]
  apply takeBytes_ones
  · intro c hc
    rcases List.mem_append.mp hc with hc | hc
    · exact utf8Bytes_digit (hdig c hc)
    · rw [List.eq_of_mem_replicate hc]
      decide
  · simp only [List.length_append, List.length_replicate]
    omega

theorem first_four_exact (s : List Char) (hdig : ∀ c ∈ s, isDigitC c = true)
    (hlen : s.length = 4) : first_four_chars_or_pad s = some s := by
  rw [first_four_digits s hdig]
  have h1 : s ++ List.replicate (4 - s.length) '0' = s := by
    rw [hlen]
    simp
  rw [h1, ← hlen, List.take_length]

theorem splitOnce_append (sep : Char) (l t : List Char) (hl : sep ∉ l) :
    splitOnce sep (l ++ sep :: t) = some (l, t) := by
  induction l with
  | nil => simp [splitOnce]
  | cons c cs ih =>
    simp only [List.cons_append, splitOnce, List.append_eq]
    rw [if_neg (fun h => hl (by rw [← h]; exact List.mem_cons_self c cs))]
    rw [ih (fun h => hl (List.mem_cons_of_mem _ h))]

/-! Claims C3, C4 and C10: the amount codec. -/

/-- C3: for every non-negative amount representable as a `u64` count of
ten-thousandths, parsing the text produced by formatting it returns exactly
the same value. -/
theorem claim_C3 (x : Nat) (hx : x < 2 ^ 64) :
    float_str_to_fixed_point_4_decimal (fixed_point_4_decimal_to_float_str x) =
      .ok x := by
  unfold fixed_point_4_decimal_to_float_str float_str_to_fixed_point_4_decimal
  rw [splitOnce_append _ _ _ (dot_not_mem_of_digits _ (natDec_all_digits _))]
  unfold parseParts
  have hpad_dig := pad4_all_digits (natDec (x % 10000)) (natDec_all_digits _)
  have hpad_len := pad4_length (natDec (x % 10000)) (natDec_length_le _ (by omega))
  have hpad_ne : pad4 (natDec (x % 10000)) ≠ [] := by
    intro h
    rw [h] at hpad_len
    simp at hpad_len
  have hsplit : x / 10000 * 10000 + x % 10000 = x := by omega
  simp only [parse_u64_natDec (x / 10000) (by omega),
    first_four_exact _ hpad_dig hpad_len,
    parse_u64_digits _ hpad_ne hpad_dig,
    digitsToNat_pad4, digitsToNat_natDec]
  rw [if_pos (show x / 10000 * 10000 < 2 ^ 64 by omega)]
  rw [if_pos (show x % 10000 < 2 ^ 64 by omega)]
  show (if x / 10000 * 10000 + x % 10000 < 2 ^ 64 then
      ParseRes.ok (x / 10000 * 10000 + x % 10000) else ParseRes.panic) = ParseRes.ok x
  rw [hsplit, if_pos hx]

/-- C3 witness at a concrete representable amount. -/
theorem claim_C3_witness :
    float_str_to_fixed_point_4_decimal (fixed_point_4_decimal_to_float_str 12345) =
      .ok 12345 :=
  claim_C3 12345 (by norm_num)

/-- C4: parsing keeps exactly the first 4 fractional digits, silently
discarding the rest without rounding; in particular
`parse("1.00019999") = parse("1.0001")`; and a fractional part shorter than 4
digits is right-padded with `'0'` to 4 digits. -/
theorem claim_C4 :
    (∀ (intp frac : List Char), ('.' : Char) ∉ intp →
      (∀ c ∈ frac, isDigitC c = true) → 4 < frac.length →
      float_str_to_fixed_point_4_decimal (intp ++ '.' :: frac) =
        float_str_to_fixed_point_4_decimal (intp ++ '.' :: frac.take 4)) ∧
    (float_str_to_fixed_point_4_decimal
        ['1', '.', '0', '0', '0', '1', '9', '9', '9', '9'] =
      float_str_to_fixed_point_4_decimal ['1', '.', '0', '0', '0', '1']) ∧
    (∀ (intp frac : List Char), ('.' : Char) ∉ intp →
      (∀ c ∈ frac, isDigitC c = true) → frac.length < 4 →
      float_str_to_fixed_point_4_decimal (intp ++ '.' :: frac) =
        float_str_to_fixed_point_4_decimal
          (intp ++ '.' :: (frac ++ List.replicate (4 - frac.length) '0'))) := by
  refine ⟨?_, by decide, ?_⟩
  · intro intp frac hdot hdig hlen
    unfold float_str_to_fixed_point_4_decimal
    rw [splitOnce_append _ _ _ hdot, splitOnce_append _ _ _ hdot]
    unfold parseParts
    have h1 : first_four_chars_or_pad frac = some (frac.take 4) := by
      rw [first_four_digits _ hdig]
      have h0 : 4 - frac.length = 0 := by omega
      rw [h0]
      simp
    have h2 : first_four_chars_or_pad (frac.take 4) = some (frac.take 4) := by
      apply first_four_exact
      · intro c hc
        exact hdig c (List.take_subset _ _ hc)
      · simp only [List.length_take]
        omega
    simp only [h1, h2]
  · intro intp frac hdot hdig hlen
    unfold float_str_to_fixed_point_4_decimal
    rw [splitOnce_append _ _ _ hdot, splitOnce_append _ _ _ hdot]
    unfold parseParts
    have hdig' : ∀ c ∈ frac ++ List.replicate (4 - frac.length) '0',
        isDigitC c = true := by
      intro c hc
      rcases List.mem_append.mp hc with hc | hc
      · exact hdig c hc
      · rw [List.eq_of_mem_replicate hc]
        decide
    have hl4 : (frac ++ List.replicate (4 - frac.length) '0').length = 4 := by
      simp only [List.length_append, List.length_replicate]
      omega
    have h1 : first_four_chars_or_pad frac =
        some (frac ++ List.replicate (4 - frac.length) '0') := by
      rw [first_four_digits _ hdig]
      congr 1
      exact List.take_of_length_le (by rw [hl4])
    have h2 : first_four_chars_or_pad (frac ++ List.replicate (4 - frac.length) '0') =
        some (frac ++ List.replicate (4 - frac.length) '0') :=
      first_four_exact _ hdig' hl4
    simp only [h1, h2]

/-- C4 witness: truncation of excess fractional digits at a concrete input,
obtained from the general truncation statement. -/
theorem claim_C4_witness :
    float_str_to_fixed_point_4_decimal
        (['2'] ++ '.' :: ['0', '0', '0', '1', '9', '9', '9', '9']) =
      float_str_to_fixed_point_4_decimal
        (['2'] ++ '.' :: ['0', '0', '0', '1', '9', '9', '9', '9'].take 4) :=
  claim_C4.1 ['2'] ['0', '0', '0', '1', '9', '9', '9', '9'] (by decide) (by decide)
    (by norm_num)

/-- C10 (refuted; the code has the bug): amount parsing is not total.  The
checked multiplication of the integer part by 10000 overflows `u64` on
`"1844674407370956.0"` (the integer part itself parses fine), and the byte
slice `result[..4]` of `first_four_chars_or_pad` falls inside the UTF-8
encoding of a character on `"0.00日0"`; in the checked profile both inputs
panic instead of returning `Ok` or a `ParseError`. -/
theorem claim_C10_bug :
    float_str_to_fixed_point_4_decimal
        ['1', '8', '4', '4', '6', '7', '4', '4', '0', '7', '3', '7', '0', '9', '5', '6',
         '.', '0'] = .panic ∧
    float_str_to_fixed_point_4_decimal ['0', '.', '0', '0', '日', '0'] = .panic := by
  exact ⟨by decide, by decide⟩

end PaymentsEngine
